import Mathlib

/-!
Verification development for the balanced multilingual corpus builder
(tokenizer_dataset_creation/balanced_split.py).

Texts are modelled as List Char; the filesystem is a partial map from
file path to file content.  All definitions are direct translations of
the Python source: pure functions become Lean functions, the optional
character cap of the loader becomes an Option Nat, machine integers are
Nat (all quantities in the program are non-negative counts).  The only
abstractions are: (a) the process-wide seeded random generator used by
random.shuffle is passed to the File Assembler as an explicit shuffle
function, with theorems hypothesising only that it permutes its input;
(b) console printing and the CSV float percentage columns (display-only
derived values, touched by no claim) are not modelled; (c) the split
fractions, Python floats 0.9 and 1.0, are modelled as exact rationals,
and int() as truncation toward zero.
-/

/-- One row of the LANGUAGE_DATA availability table. -/
structure LangData where
  wiki : Nat
  oscar : Nat
  total : Nat
deriving DecidableEq

/-- The fixed language list (LANGUAGES in the source). -/
def LANGUAGES : List String := ["yo", "ar", "zh", "ru", "hi", "ja", "sw", "bn", "tr"]

def WIKI_DIR : String := "wiki_data_final"

def OSCAR_DIR : String := "output"

/-- The static per-language availability table (LANGUAGE_DATA in the source). -/
def LANGUAGE_DATA : List (String × LangData) :=
  [("yo", ⟨12646633, 18209, 12664842⟩),
   ("ar", ⟨1326903243, 50000000, 1376903243⟩),
   ("zh", ⟨730233254, 50000000, 780233254⟩),
   ("ru", ⟨4569290658, 50000000, 4619290658⟩),
   ("hi", ⟨218280173, 50000000, 268280173⟩),
   ("ja", ⟨1423270470, 50000000, 1473270470⟩),
   ("sw", ⟨61130713, 8428241, 69558954⟩),
   ("bn", ⟨368019974, 50000000, 418019974⟩),
   ("tr", ⟨728714011, 50000000, 778714011⟩)]

/-- os.path.join(WIKI_DIR, lang + "_articles.txt"). -/
def wikiPath (lang : String) : String := WIKI_DIR ++ "/" ++ lang ++ "_articles.txt"

/-- os.path.join(OSCAR_DIR, "oscar_" + lang + "_50M.txt"). -/
def oscarPath (lang : String) : String := OSCAR_DIR ++ "/oscar_" ++ lang ++ "_50M.txt"

/-- load_text_file from the source.  A missing file (and, in the source,
any other I/O failure) yields the empty string.  Python reads f.read(n)
when the cap is truthy, i.e. neither None nor 0; a cap of 0 therefore
falls through to an uncapped f.read(). -/
def load_text_file (fs : String → Option (List Char)) (filepath : String)
    (max_chars : Option Nat) : List Char :=
  match fs filepath with
  | none => []
  | some content =>
    match max_chars with
    | none => content
    | some n => if n = 0 then content else content.take n

/-- Length of the content stored at a path (0 when the file is absent). -/
def fileLen (fs : String → Option (List Char)) (p : String) : Nat :=
  ((fs p).getD []).length

/-- The list of contiguous chunks text[i:i+chunk_size] for i in
range(0, len(text), chunk_size), as built by interleave_texts. -/
def chunksFrom {α : Type} (s : List α) (k : Nat) : List (List α) :=
  if h : s.isEmpty ∨ k = 0 then [] else
    s.take k :: chunksFrom (s.drop k) k
termination_by s.length
decreasing_by
  simp only [not_or, List.isEmpty_iff] at h
  have hk : 0 < k := Nat.pos_of_ne_zero h.2
  have hs : 0 < s.length := List.length_pos.mpr h.1
  simp only [List.length_drop]
  omega

/-- The chunk-alternating loop of interleave_texts: chunk 0 of the first
list, chunk 0 of the second, chunk 1 of the first, and so on, skipping a
source once its chunks run out. -/
def interleave_chunks {α : Type} : List (List α) → List (List α) → List (List α)
  | [], ys => ys
  | xs, [] => xs
  | x :: xs, y :: ys => x :: y :: interleave_chunks xs ys

/-- interleave_texts from the source (chunk_size defaults to 1000 at the
call site).  Stated polymorphically; the program instantiates it at Char. -/
def interleave_texts {α : Type} (text1 text2 : List α) (chunk_size : Nat) : List α :=
  if text1.isEmpty then text2
  else if text2.isEmpty then text1
  else (interleave_chunks (chunksFrom text1 chunk_size) (chunksFrom text2 chunk_size)).flatten

/-- The allocation branching of get_balanced_language_data (source lines
124-154): how many characters to request from the wiki source (first
component) and the OSCAR source (second component). -/
def alloc_policy (wiki_available oscar_available chars_needed : Nat) : Nat × Nat :=
  if oscar_available = 0 then
    (min chars_needed wiki_available, 0)
  else if wiki_available = 0 then
    (0, min chars_needed oscar_available)
  else
    let target_per_source := chars_needed / 2
    if target_per_source ≤ min wiki_available oscar_available then
      (target_per_source, chars_needed - target_per_source)
    else if chars_needed ≤ wiki_available then
      let oscar_chars := min oscar_available (chars_needed / 2)
      (chars_needed - oscar_chars, oscar_chars)
    else if chars_needed ≤ oscar_available then
      let wiki_chars := min wiki_available (chars_needed / 2)
      (wiki_chars, chars_needed - wiki_chars)
    else
      let wiki_chars := min wiki_available chars_needed
      (wiki_chars, min oscar_available (chars_needed - wiki_chars))

/-- The per-language statistics dict built by get_balanced_language_data. -/
structure LangStats where
  language : String
  wiki_chars : Nat
  oscar_chars : Nat
  total_chars : Nat
  target_chars : Nat
  wiki_available : Nat
  oscar_available : Nat
deriving DecidableEq

/-- The wiki text loaded by get_balanced_language_data: loaded with cap
wiki_chars when wiki_chars is positive, else the empty string. -/
def wiki_text_of (d : LangData) (lang : String) (n : Nat)
    (fs : String → Option (List Char)) : List Char :=
  if 0 < (alloc_policy d.wiki d.oscar n).1 then
    load_text_file fs (wikiPath lang) (some (alloc_policy d.wiki d.oscar n).1)
  else []

/-- The OSCAR text loaded by get_balanced_language_data. -/
def oscar_text_of (d : LangData) (lang : String) (n : Nat)
    (fs : String → Option (List Char)) : List Char :=
  if 0 < (alloc_policy d.wiki d.oscar n).2 then
    load_text_file fs (oscarPath lang) (some (alloc_policy d.wiki d.oscar n).2)
  else []

/-- The statistics record of get_balanced_language_data: the reported
wiki_chars and oscar_chars are the actually loaded lengths (source lines
163-165), computed before merging. -/
def stats_of (d : LangData) (lang : String) (n : Nat)
    (fs : String → Option (List Char)) : LangStats :=
  { language := lang
    wiki_chars := (wiki_text_of d lang n fs).length
    oscar_chars := (oscar_text_of d lang n fs).length
    total_chars := (wiki_text_of d lang n fs).length + (oscar_text_of d lang n fs).length
    target_chars := n
    wiki_available := d.wiki
    oscar_available := d.oscar }

/-- The merged text before the safety-net truncation: the two loaded
texts interleaved with chunk_size 1000. -/
def merged_of (d : LangData) (lang : String) (n : Nat)
    (fs : String → Option (List Char)) : List Char :=
  interleave_texts (wiki_text_of d lang n fs) (oscar_text_of d lang n fs) 1000

/-- get_balanced_language_data from the source.  Returns none when the
language is absent from LANGUAGE_DATA (a KeyError in Python).  The final
text is truncated to chars_needed when the merge overshoots it. -/
def get_balanced_language_data (lang : String) (chars_needed : Nat)
    (fs : String → Option (List Char)) : Option (List Char × LangStats) :=
  match LANGUAGE_DATA.lookup lang with
  | none => none
  | some d =>
    let merged := merged_of d lang chars_needed fs
    let final := if chars_needed < merged.length then merged.take chars_needed else merged
    some (final, stats_of d lang chars_needed fs)

/-- One split configuration as built by find_baseline_amounts. -/
structure SplitConfig where
  filename : String
  chars_per_lang : Nat
  total_chars : Nat
  baseline_lang : String
deriving DecidableEq

/-- The per-file summary dict returned by create_balanced_file. -/
structure FileStats where
  filename : String
  target_chars : Nat
  actual_chars : Nat
  chars_per_lang : Nat
  baseline_lang : String
  language_stats : List (String × LangStats)
deriving DecidableEq

/-- lang.upper() in the source: per-character uppercasing. -/
def py_upper (lang : String) : String := String.mk (lang.data.map Char.toUpper)

/-- The labelled language block written by create_balanced_file. -/
def block_of (lang : String) (text : List Char) : List Char :=
  ("# Language: " ++ py_upper lang ++ "\n").data ++ text ++ "\n\n".data

/-- The per-language loop of create_balanced_file: each language is
processed in order and the pair (text, stats) collected; a missing
table entry aborts (Python KeyError). -/
def collect_languages (n : Nat) (fs : String → Option (List Char)) :
    List String → Option (List (String × List Char × LangStats))
  | [] => some []
  | l :: ls =>
    match get_balanced_language_data l n fs with
    | none => none
    | some r => (collect_languages n fs ls).map (fun rest => (l, r) :: rest)

/-- create_balanced_file from the source.  The shuffle of the collected
blocks (random.shuffle with the process-wide generator) is passed in as
a function; theorems only assume it permutes its argument.  Returns the
written file content together with the summary statistics. -/
def create_balanced_file (cfg : SplitConfig) (fs : String → Option (List Char))
    (shuffle : List (List Char) → List (List Char)) : Option (List Char × FileStats) :=
  (collect_languages cfg.chars_per_lang fs LANGUAGES).map (fun results =>
    let all_texts := (results.filter (fun r => 0 < r.2.1.length)).map
      (fun r => block_of r.1 r.2.1)
    let final_text := (shuffle all_texts).flatten
    (final_text,
      { filename := cfg.filename
        target_chars := cfg.total_chars
        actual_chars := final_text.length
        chars_per_lang := cfg.chars_per_lang
        baseline_lang := cfg.baseline_lang
        language_stats := results.map (fun r => (r.1, r.2.2)) }))

/-- One data row of balanced_statistics.csv (save_statistics_to_file).
The two float percentage columns are display-only derived values and
are not modelled. -/
structure CsvRow where
  file : String
  language : String
  is_baseline : String
  target_chars : Nat
  wiki_chars : Nat
  oscar_chars : Nat
  total_chars : Nat
deriving DecidableEq

/-- The rows of balanced_statistics.csv, one per (file, language) pair,
in file order then LANGUAGES order, skipping languages absent from a
file entry (save_statistics_to_file in the source). -/
def csv_rows (all_file_stats : List FileStats) : List CsvRow :=
  all_file_stats.flatMap (fun fstat =>
    LANGUAGES.filterMap (fun lang =>
      (fstat.language_stats.lookup lang).map (fun st =>
        { file := fstat.filename
          language := lang
          is_baseline := if lang = fstat.baseline_lang then "YES" else "NO"
          target_chars := st.target_chars
          wiki_chars := st.wiki_chars
          oscar_chars := st.oscar_chars
          total_chars := st.total_chars })))

/-- Python int() on a rational value: truncation toward zero. -/
def py_int (q : Rat) : Int := if 0 ≤ q then q.floor else -(-q).floor

/-- min(table.keys(), key=total) together with its row: the first entry
of least total (Python min keeps the earliest minimum). -/
def min_by_total (profiles : List (String × LangData)) : Option (String × LangData) :=
  match profiles with
  | [] => none
  | p :: ps => some (ps.foldl (fun acc q => if q.2.total < acc.2.total then q else acc) p)

/-- The per-language character target derived from a profile set and a
split fraction: int(min_total * fraction), none for an empty table
(Python min raises ValueError). -/
def chars_per_lang_of (profiles : List (String × LangData)) (frac : Rat) : Option Int :=
  (min_by_total profiles).map (fun p => py_int ((p.2.total : Rat) * frac))

/-- The three split configurations of find_baseline_amounts:
(key, fraction of the baseline, output filename). -/
def split_configs : List (String × Rat × String) :=
  [("small", 9/10, "final_balanced_small.txt"),
   ("medium", 1, "final_balanced_medium.txt"),
   ("large", 1, "final_balanced_large.txt")]

/-- find_baseline_amounts from the source: one SplitConfig per
configured fraction, all derived from the least total in LANGUAGE_DATA. -/
def find_baseline_amounts : List (String × SplitConfig) :=
  split_configs.map (fun c =>
    (c.1,
      { filename := c.2.2
        chars_per_lang := ((chars_per_lang_of LANGUAGE_DATA c.2.1).getD 0).toNat
        total_chars := ((chars_per_lang_of LANGUAGE_DATA c.2.1).getD 0).toNat * LANGUAGES.length
        baseline_lang := ((min_by_total LANGUAGE_DATA).map Prod.fst).getD "" }))

/-- Provenance projection: keep a character only if it came from the
first source of a tagged interleaving. -/
def fromA : Sum Char Char → Option Char
  | Sum.inl a => some a
  | Sum.inr _ => none

/-- Provenance projection for the second source. -/
def fromB : Sum Char Char → Option Char
  | Sum.inl _ => none
  | Sum.inr b => some b

/-- Forget provenance tags. -/
def untag : Sum Char Char → Char
  | Sum.inl a => a
  | Sum.inr b => b

/-- The medium split configuration (100 percent of the baseline). -/
def mediumCfg : SplitConfig :=
  { filename := "final_balanced_medium.txt"
    chars_per_lang := 12664842
    total_chars := 113983578
    baseline_lang := "yo" }

/-- A filesystem holding, for every language, a wiki file and an OSCAR
file of exactly the advertised lengths. -/
def fsFull : String → Option (List Char) := fun p =>
  if p = "wiki_data_final/yo_articles.txt" then some (List.replicate 12646633 'a')
  else if p = "output/oscar_yo_50M.txt" then some (List.replicate 18209 'a')
  else if p = "wiki_data_final/ar_articles.txt" then some (List.replicate 1326903243 'a')
  else if p = "output/oscar_ar_50M.txt" then some (List.replicate 50000000 'a')
  else if p = "wiki_data_final/zh_articles.txt" then some (List.replicate 730233254 'a')
  else if p = "output/oscar_zh_50M.txt" then some (List.replicate 50000000 'a')
  else if p = "wiki_data_final/ru_articles.txt" then some (List.replicate 4569290658 'a')
  else if p = "output/oscar_ru_50M.txt" then some (List.replicate 50000000 'a')
  else if p = "wiki_data_final/hi_articles.txt" then some (List.replicate 218280173 'a')
  else if p = "output/oscar_hi_50M.txt" then some (List.replicate 50000000 'a')
  else if p = "wiki_data_final/ja_articles.txt" then some (List.replicate 1423270470 'a')
  else if p = "output/oscar_ja_50M.txt" then some (List.replicate 50000000 'a')
  else if p = "wiki_data_final/sw_articles.txt" then some (List.replicate 61130713 'a')
  else if p = "output/oscar_sw_50M.txt" then some (List.replicate 8428241 'a')
  else if p = "wiki_data_final/bn_articles.txt" then some (List.replicate 368019974 'a')
  else if p = "output/oscar_bn_50M.txt" then some (List.replicate 50000000 'a')
  else if p = "wiki_data_final/tr_articles.txt" then some (List.replicate 728714011 'a')
  else if p = "output/oscar_tr_50M.txt" then some (List.replicate 50000000 'a')
  else none

/-- A filesystem holding both yo source files at exactly their advertised
lengths. -/
def fsYoExact : String → Option (List Char) := fun p =>
  if p = "wiki_data_final/yo_articles.txt" then some (List.replicate 12646633 'a')
  else if p = "output/oscar_yo_50M.txt" then some (List.replicate 18209 'a')
  else none

/-- A filesystem where the ar wiki file is absent while the ar OSCAR file
holds one full medium target of characters. -/
def fsArNoWiki : String → Option (List Char) := fun p =>
  if p = "output/oscar_ar_50M.txt" then some (List.replicate 12664842 'a')
  else none

/-- A filesystem holding both sw source files at exactly their advertised
lengths. -/
def fsSw : String → Option (List Char) := fun p =>
  if p = "wiki_data_final/sw_articles.txt" then some (List.replicate 61130713 'a')
  else if p = "output/oscar_sw_50M.txt" then some (List.replicate 8428241 'a')
  else none

/-- A two-character file for exercising the loader cap. -/
def fsTwo : String → Option (List Char) := fun p =>
  if p = "f.txt" then some ("ab".data) else none

/-! ### Helper lemmas: allocation policy arithmetic -/

theorem alloc_sum_le (w o n : Nat) : (alloc_policy w o n).1 + (alloc_policy w o n).2 ≤ n := by
  simp only [alloc_policy]
  split_ifs <;> omega

theorem alloc_fst_le (w o n : Nat) : (alloc_policy w o n).1 ≤ w := by
  simp only [alloc_policy]
  split_ifs <;> omega

theorem alloc_eq (w o n : Nat) (hsum : n ≤ w + o)
    (hex : n / 2 ≤ min w o → n - n / 2 ≤ o) :
    (alloc_policy w o n).1 + (alloc_policy w o n).2 = n ∧ (alloc_policy w o n).2 ≤ o := by
  simp only [alloc_policy]
  split_ifs <;> omega

theorem alloc_half (w o n : Nat) (hw : 0 < w) (ho : 0 < o) (h : n / 2 ≤ min w o) :
    (alloc_policy w o n).1 = n / 2 ∧ (alloc_policy w o n).2 = n - n / 2 := by
  simp only [alloc_policy]
  split_ifs <;> omega

/-! ### Helper lemmas: chunking and interleaving -/

theorem chunksFrom_flatten {α : Type} (k : Nat) (hk : 0 < k) (s : List α) :
    (chunksFrom s k).flatten = s := by
  generalize hn : s.length = n
  induction n using Nat.strong_induction_on generalizing s with
  | _ n ih =>
    rw [chunksFrom]
    by_cases hs : s.isEmpty
    · simp only [hs, true_or, dite_true, List.flatten_nil]
      exact (List.isEmpty_iff.mp hs).symm
    · have hcond : ¬(s.isEmpty = true ∨ k = 0) := by
        simp [hs, Nat.pos_iff_ne_zero.mp hk]
      rw [dif_neg hcond]
      have hne : s ≠ [] := fun h => by simp [h] at hs
      have hpos : 0 < s.length := List.length_pos.mpr hne
      have hlen : (s.drop k).length < n := by
        simp only [List.length_drop]; omega
      rw [List.flatten_cons, ih _ hlen _ rfl, List.take_append_drop]

theorem chunksFrom_map {α β : Type} (g : α → β) (k : Nat) (s : List α) :
    chunksFrom (s.map g) k = (chunksFrom s k).map (List.map g) := by
  generalize hn : s.length = n
  induction n using Nat.strong_induction_on generalizing s with
  | _ n ih =>
    conv_lhs => rw [chunksFrom]
    conv_rhs => rw [chunksFrom]
    by_cases hs : s.isEmpty
    · have hsnil : s = [] := List.isEmpty_iff.mp hs
      subst hsnil
      simp
    · have hne : s ≠ [] := fun h => by simp [h] at hs
      have hms : ((s.map g).isEmpty) = false := by
        simp [List.isEmpty_iff, List.map_eq_nil_iff, hne]
      have hs0 : s.isEmpty = false := by simp [List.isEmpty_iff, hne]
      by_cases hk : k = 0
      · simp [hk]
      · rw [dif_neg (by simp [hms, hk]), dif_neg (by simp [hs0, hk])]
        have hpos : 0 < s.length := List.length_pos.mpr hne
        have hlen : (s.drop k).length < n := by
          simp only [List.length_drop]; omega
        rw [List.map_cons, List.map_take, ← List.map_drop, ih _ hlen _ rfl]

theorem interleave_chunks_perm {α : Type} (xs : List (List α)) : ∀ (ys : List (List α)),
    (interleave_chunks xs ys).Perm (xs ++ ys) := by
  induction xs with
  | nil => intro ys; simp [interleave_chunks]
  | cons x xs ih =>
    intro ys
    cases ys with
    | nil => simp [interleave_chunks]
    | cons y ys =>
      simp only [interleave_chunks, List.cons_append]
      refine List.Perm.cons x ?_
      exact ((ih ys).cons y).trans List.perm_middle.symm

theorem interleave_chunks_flatten_length {α : Type} (xs ys : List (List α)) :
    ((interleave_chunks xs ys).flatten).length = xs.flatten.length + ys.flatten.length := by
  have h := ((interleave_chunks_perm xs ys).map List.length).sum_eq
  simp only [List.length_flatten, List.map_append, List.sum_append] at *
  omega

theorem interleave_chunks_map {α β : Type} (g : α → β) (xs : List (List α)) :
    ∀ (ys : List (List α)),
    interleave_chunks (xs.map (List.map g)) (ys.map (List.map g)) =
      (interleave_chunks xs ys).map (List.map g) := by
  induction xs with
  | nil => intro ys; simp [interleave_chunks]
  | cons x xs ih =>
    intro ys
    cases ys with
    | nil => simp [interleave_chunks]
    | cons y ys => simp only [List.map_cons, interleave_chunks, ih]

theorem interleave_texts_length {α : Type} (A B : List α) (k : Nat) (hk : 0 < k) :
    (interleave_texts A B k).length = A.length + B.length := by
  unfold interleave_texts
  by_cases hA : A.isEmpty
  · simp [hA, List.isEmpty_iff.mp hA]
  · by_cases hB : B.isEmpty
    · simp [hA, hB, List.isEmpty_iff.mp hB]
    · simp only [hA, hB, Bool.false_eq_true, if_false]
      rw [interleave_chunks_flatten_length, chunksFrom_flatten k hk A,
        chunksFrom_flatten k hk B]

theorem interleave_texts_map {α β : Type} (g : α → β) (A B : List α) (k : Nat) :
    interleave_texts (A.map g) (B.map g) k = (interleave_texts A B k).map g := by
  unfold interleave_texts
  by_cases hA : A.isEmpty
  · have : A = [] := List.isEmpty_iff.mp hA
    subst this; simp
  · by_cases hB : B.isEmpty
    · have : B = [] := List.isEmpty_iff.mp hB
      subst this
      have hne : A ≠ [] := fun h => by simp [h] at hA
      have hmA : ((A.map g).isEmpty) = false := by
        simp [List.isEmpty_iff, List.map_eq_nil_iff, hne]
      have hA0 : A.isEmpty = false := by simp [List.isEmpty_iff, hne]
      simp [hmA, hA0]
    · have hne : A ≠ [] := fun h => by simp [h] at hA
      have hneB : B ≠ [] := fun h => by simp [h] at hB
      have hmA : ((A.map g).isEmpty) = false := by
        simp [List.isEmpty_iff, List.map_eq_nil_iff, hne]
      have hmB : ((B.map g).isEmpty) = false := by
        simp [List.isEmpty_iff, List.map_eq_nil_iff, hneB]
      have hA0 : A.isEmpty = false := by simp [List.isEmpty_iff, hne]
      have hB0 : B.isEmpty = false := by simp [List.isEmpty_iff, hneB]
      rw [hmA, hmB, hA0, hB0]
      simp only [Bool.false_eq_true, if_false]
      rw [chunksFrom_map, chunksFrom_map, interleave_chunks_map, List.map_flatten]

theorem flatten_filterMap_nil {α β : Type} (f : α → Option β) :
    ∀ (ys : List (List α)), (∀ c ∈ ys, c.filterMap f = []) →
      ys.flatten.filterMap f = [] := by
  intro ys
  induction ys with
  | nil => intro _; simp
  | cons y ys ih =>
    intro h
    rw [List.flatten_cons, List.filterMap_append, h y (List.mem_cons_self y ys),
      ih (fun c hc => h c (List.mem_cons_of_mem y hc))]
    rfl

theorem interleave_flatten_filterMap {α β : Type} (f : α → Option β) (xs : List (List α)) :
    ∀ (ys : List (List α)), (∀ c ∈ ys, c.filterMap f = []) →
      ((interleave_chunks xs ys).flatten).filterMap f = (xs.flatten).filterMap f := by
  induction xs with
  | nil =>
    intro ys h
    simp only [interleave_chunks, List.flatten_nil, List.filterMap_nil]
    exact flatten_filterMap_nil f ys h
  | cons x xs ih =>
    intro ys h
    cases ys with
    | nil => simp only [interleave_chunks]
    | cons y ys =>
      simp only [interleave_chunks, List.flatten_cons, List.filterMap_append]
      rw [h y (List.mem_cons_self y ys), ih ys (fun c hc => h c (List.mem_cons_of_mem y hc))]
      simp

theorem interleave_flatten_filterMap_right {α β : Type} (f : α → Option β)
    (xs : List (List α)) : ∀ (ys : List (List α)), (∀ c ∈ xs, c.filterMap f = []) →
      ((interleave_chunks xs ys).flatten).filterMap f = (ys.flatten).filterMap f := by
  induction xs with
  | nil => intro ys _; simp only [interleave_chunks]
  | cons x xs ih =>
    intro ys h
    cases ys with
    | nil =>
      simp only [interleave_chunks]
      rw [flatten_filterMap_nil f (x :: xs) h]
      simp
    | cons y ys =>
      simp only [interleave_chunks, List.flatten_cons, List.filterMap_append]
      rw [h x (List.mem_cons_self x xs), ih ys (fun c hc => h c (List.mem_cons_of_mem x hc))]
      simp

theorem mem_chunksFrom {α : Type} (k : Nat) (hk : 0 < k) (s : List α) (c : List α)
    (hc : c ∈ chunksFrom s k) (a : α) (ha : a ∈ c) : a ∈ s := by
  rw [← chunksFrom_flatten k hk s]
  exact List.mem_flatten.mpr ⟨c, hc, ha⟩

/-! ### Helper lemmas: the source loader -/

theorem load_missing (fs : String → Option (List Char)) (p : String) (mc : Option Nat)
    (h : fs p = none) : load_text_file fs p mc = [] := by
  unfold load_text_file
  rw [h]

theorem load_length_le (fs : String → Option (List Char)) (p : String) (n : Nat)
    (hn : 0 < n) : (load_text_file fs p (some n)).length ≤ n := by
  unfold load_text_file
  cases h : fs p with
  | none => simp
  | some c =>
    dsimp only
    rw [if_neg (Nat.pos_iff_ne_zero.mp hn)]
    simp only [List.length_take]
    omega

theorem load_length_eq (fs : String → Option (List Char)) (p : String) (n : Nat)
    (hn : 0 < n) (h : n ≤ fileLen fs p) : (load_text_file fs p (some n)).length = n := by
  unfold load_text_file
  unfold fileLen at h
  cases hfs : fs p with
  | none => rw [hfs] at h; simp at h; omega
  | some c =>
    rw [hfs] at h
    simp only [Option.getD_some] at h
    dsimp only
    rw [if_neg (Nat.pos_iff_ne_zero.mp hn)]
    simp only [List.length_take]
    omega

theorem load_is_prefix (fs : String → Option (List Char)) (p : String) (n : Nat)
    (hn : 0 < n) : ∃ t, load_text_file fs p (some n) ++ t = (fs p).getD [] := by
  unfold load_text_file
  cases hfs : fs p with
  | none => exact ⟨[], rfl⟩
  | some c =>
    dsimp only
    rw [if_neg (Nat.pos_iff_ne_zero.mp hn)]
    exact ⟨c.drop n, List.take_append_drop n c⟩

/-! ### Helper lemmas: per-language loading and merging -/

theorem wiki_text_len_le (d : LangData) (lang : String) (n : Nat)
    (fs : String → Option (List Char)) :
    (wiki_text_of d lang n fs).length ≤ (alloc_policy d.wiki d.oscar n).1 := by
  unfold wiki_text_of
  split_ifs with h
  · exact load_length_le _ _ _ h
  · simp

theorem oscar_text_len_le (d : LangData) (lang : String) (n : Nat)
    (fs : String → Option (List Char)) :
    (oscar_text_of d lang n fs).length ≤ (alloc_policy d.wiki d.oscar n).2 := by
  unfold oscar_text_of
  split_ifs with h
  · exact load_length_le _ _ _ h
  · simp

theorem wiki_text_len_eq (d : LangData) (lang : String) (n : Nat)
    (fs : String → Option (List Char))
    (h : (alloc_policy d.wiki d.oscar n).1 ≤ fileLen fs (wikiPath lang)) :
    (wiki_text_of d lang n fs).length = (alloc_policy d.wiki d.oscar n).1 := by
  unfold wiki_text_of
  split_ifs with h0
  · exact load_length_eq _ _ _ h0 h
  · simp only [List.length_nil]
    omega

theorem oscar_text_len_eq (d : LangData) (lang : String) (n : Nat)
    (fs : String → Option (List Char))
    (h : (alloc_policy d.wiki d.oscar n).2 ≤ fileLen fs (oscarPath lang)) :
    (oscar_text_of d lang n fs).length = (alloc_policy d.wiki d.oscar n).2 := by
  unfold oscar_text_of
  split_ifs with h0
  · exact load_length_eq _ _ _ h0 h
  · simp only [List.length_nil]
    omega

theorem merged_of_length (d : LangData) (lang : String) (n : Nat)
    (fs : String → Option (List Char)) :
    (merged_of d lang n fs).length =
      (wiki_text_of d lang n fs).length + (oscar_text_of d lang n fs).length :=
  interleave_texts_length _ _ 1000 (by norm_num)

theorem merged_of_length_le (d : LangData) (lang : String) (n : Nat)
    (fs : String → Option (List Char)) : (merged_of d lang n fs).length ≤ n := by
  rw [merged_of_length]
  have h1 := wiki_text_len_le d lang n fs
  have h2 := oscar_text_len_le d lang n fs
  have h3 := alloc_sum_le d.wiki d.oscar n
  omega

theorem get_balanced_language_data_eq (lang : String) (d : LangData) (n : Nat)
    (fs : String → Option (List Char)) (hd : LANGUAGE_DATA.lookup lang = some d) :
    get_balanced_language_data lang n fs =
      some (merged_of d lang n fs, stats_of d lang n fs) := by
  unfold get_balanced_language_data
  rw [hd]
  have hle := merged_of_length_le d lang n fs
  simp only [if_neg (Nat.not_lt.mpr hle)]

theorem stats_total_le (d : LangData) (lang : String) (n : Nat)
    (fs : String → Option (List Char)) : (stats_of d lang n fs).total_chars ≤ n := by
  unfold stats_of
  simp only []
  have h1 := wiki_text_len_le d lang n fs
  have h2 := oscar_text_len_le d lang n fs
  have h3 := alloc_sum_le d.wiki d.oscar n
  omega

theorem stats_total_eq (d : LangData) (lang : String) (n : Nat)
    (fs : String → Option (List Char)) (hw : d.wiki ≤ fileLen fs (wikiPath lang))
    (ho : d.oscar ≤ fileLen fs (oscarPath lang)) (hsum : n ≤ d.wiki + d.oscar)
    (hex : n / 2 ≤ min d.wiki d.oscar → n - n / 2 ≤ d.oscar) :
    (stats_of d lang n fs).total_chars = n := by
  obtain ⟨hs, h2o⟩ := alloc_eq d.wiki d.oscar n hsum hex
  have h1 := wiki_text_len_eq d lang n fs (le_trans (alloc_fst_le d.wiki d.oscar n) hw)
  have h2 := oscar_text_len_eq d lang n fs (le_trans h2o ho)
  unfold stats_of
  simp only []
  omega

theorem merged_of_length_eq (d : LangData) (lang : String) (n : Nat)
    (fs : String → Option (List Char)) (hw : d.wiki ≤ fileLen fs (wikiPath lang))
    (ho : d.oscar ≤ fileLen fs (oscarPath lang)) (hsum : n ≤ d.wiki + d.oscar)
    (hex : n / 2 ≤ min d.wiki d.oscar → n - n / 2 ≤ d.oscar) :
    (merged_of d lang n fs).length = n := by
  obtain ⟨hs, h2o⟩ := alloc_eq d.wiki d.oscar n hsum hex
  have h1 := wiki_text_len_eq d lang n fs (le_trans (alloc_fst_le d.wiki d.oscar n) hw)
  have h2 := oscar_text_len_eq d lang n fs (le_trans h2o ho)
  rw [merged_of_length]
  omega

/-! ### Helper lemmas: blocks, sums, and the per-language loop -/

theorem sum_map_const {α : Type} (f : α → Nat) (c : Nat) :
    ∀ (l : List α), (∀ x ∈ l, f x = c) → (l.map f).sum = l.length * c := by
  intro l
  induction l with
  | nil => simp
  | cons x xs ih =>
    intro h
    simp only [List.map_cons, List.sum_cons, List.length_cons,
      h x (List.mem_cons_self x xs), ih (fun y hy => h y (List.mem_cons_of_mem x hy))]
    ring

theorem py_upper_length (lang : String) : (py_upper lang).length = lang.length := by
  unfold py_upper
  show (lang.data.map Char.toUpper).length = lang.data.length
  exact List.length_map lang.data Char.toUpper

theorem block_of_length (lang : String) (text : List Char) :
    (block_of lang text).length = 13 + lang.length + text.length + 2 := by
  unfold block_of
  simp only [List.length_append]
  have h : ("# Language: " ++ py_upper lang ++ "\n").data.length
      = ("# Language: " ++ py_upper lang ++ "\n").length := rfl
  rw [h, String.length_append, String.length_append, py_upper_length]
  have h12 : ("# Language: " : String).length = 12 := by decide
  have h1 : ("\n" : String).length = 1 := by decide
  have h2 : ("\n\n" : String).data.length = 2 := by decide
  rw [h12, h1, h2]
  omega

theorem lang_lengths : ∀ l ∈ LANGUAGES, l.length = 2 := by decide

theorem languages_nodup : LANGUAGES.Nodup := by decide

theorem filterMap_lookup_map {β γ : Type} (f : String → β → γ) :
    ∀ (langs : List String) (ps : List (String × β)), ps.map Prod.fst = langs →
      langs.Nodup →
      langs.filterMap (fun l => (ps.lookup l).map (f l)) = ps.map (fun p => f p.1 p.2) := by
  intro langs
  induction langs with
  | nil =>
    intro ps h _
    rw [List.map_eq_nil_iff] at h
    subst h
    simp
  | cons l ls ih =>
    intro ps h hnd
    cases ps with
    | nil => simp at h
    | cons p ps2 =>
      obtain ⟨a, b⟩ := p
      simp only [List.map_cons, List.cons.injEq] at h
      obtain ⟨hp1, hps⟩ := h
      subst hp1
      have hlook : List.lookup a ((a, b) :: ps2) = some b := by
        simp [List.lookup]
      have hnotmem : a ∉ ls := (List.nodup_cons.mp hnd).1
      have hrest : ∀ x ∈ ls, List.lookup x ((a, b) :: ps2) = List.lookup x ps2 := by
        intro x hx
        have hxl : x ≠ a := fun he => hnotmem (he ▸ hx)
        simp only [List.lookup]
        rw [beq_eq_false_iff_ne.mpr hxl]
      rw [List.filterMap_cons]
      have hhead : Option.map (f a) (List.lookup a ((a, b) :: ps2)) = some (f a b) := by
        rw [hlook]
        rfl
      simp only [hhead]
      have htail : ls.filterMap (fun x => (List.lookup x ((a, b) :: ps2)).map (f x))
          = ls.filterMap (fun x => (List.lookup x ps2).map (f x)) := by
        apply List.filterMap_congr
        intro x hx
        rw [hrest x hx]
      rw [htail, ih ps2 hps (List.nodup_cons.mp hnd).2]
      simp

theorem collect_languages_eq (n : Nat) (fs : String → Option (List Char)) :
    ∀ (langs : List String),
    (∀ l ∈ langs, ∃ t st, get_balanced_language_data l n fs = some (t, st) ∧
      t.length = n ∧ st.total_chars = n) →
    ∃ rs, collect_languages n fs langs = some rs ∧
      rs.map Prod.fst = langs ∧
      (∀ r ∈ rs, r.2.1.length = n ∧ r.2.2.total_chars = n) := by
  intro langs
  induction langs with
  | nil => intro _; exact ⟨[], rfl, rfl, by simp⟩
  | cons l ls ih =>
    intro h
    obtain ⟨t, st, he, hlen, htot⟩ := h l (List.mem_cons_self l ls)
    obtain ⟨rs, hrs, hmap, hall⟩ := ih (fun x hx => h x (List.mem_cons_of_mem l hx))
    refine ⟨(l, t, st) :: rs, ?_, ?_, ?_⟩
    · simp only [collect_languages, he, hrs]
      rfl
    · simp [hmap]
    · intro r hr
      rcases List.mem_cons.mp hr with h1 | h2
      · subst h1; exact ⟨hlen, htot⟩
      · exact hall r h2

theorem create_balanced_file_props (cfg : SplitConfig) (fs : String → Option (List Char))
    (shuffle : List (List Char) → List (List Char))
    (hsh : ∀ l : List (List Char), (shuffle l).Perm l) (hn : 0 < cfg.chars_per_lang)
    (h : ∀ l ∈ LANGUAGES, ∃ t st,
      get_balanced_language_data l cfg.chars_per_lang fs = some (t, st) ∧
      t.length = cfg.chars_per_lang ∧ st.total_chars = cfg.chars_per_lang) :
    ∃ text st, create_balanced_file cfg fs shuffle = some (text, st) ∧
      st.actual_chars = text.length ∧
      st.actual_chars = LANGUAGES.length * (cfg.chars_per_lang + 17) ∧
      st.target_chars = cfg.total_chars ∧
      (st.language_stats.map (fun p => p.2.total_chars)).sum
        = LANGUAGES.length * cfg.chars_per_lang ∧
      ((csv_rows [st]).map (fun r => r.total_chars)).sum
        = LANGUAGES.length * cfg.chars_per_lang := by
  obtain ⟨rs, hcol, hmap, hall⟩ := collect_languages_eq cfg.chars_per_lang fs LANGUAGES h
  have hrslen : rs.length = LANGUAGES.length := by
    rw [← hmap, List.length_map]
  have hfil : rs.filter (fun r => decide (0 < r.2.1.length)) = rs := by
    apply List.filter_eq_self.mpr
    intro r hr
    rw [(hall r hr).1]
    exact decide_eq_true hn
  have hcreate : create_balanced_file cfg fs shuffle = some
      ((shuffle (rs.map (fun r => block_of r.1 r.2.1))).flatten,
       { filename := cfg.filename
         target_chars := cfg.total_chars
         actual_chars := (shuffle (rs.map (fun r => block_of r.1 r.2.1))).flatten.length
         chars_per_lang := cfg.chars_per_lang
         baseline_lang := cfg.baseline_lang
         language_stats := rs.map (fun r => (r.1, r.2.2)) }) := by
    unfold create_balanced_file
    rw [hcol]
    show some _ = some _
    dsimp only
    rw [hfil]
  have hblock_len : ∀ r ∈ rs, (block_of r.1 r.2.1).length = cfg.chars_per_lang + 17 := by
    intro r hr
    have hlang : r.1 ∈ LANGUAGES := by
      rw [← hmap]
      exact List.mem_map_of_mem Prod.fst hr
    rw [block_of_length, (hall r hr).1, lang_lengths r.1 hlang]
    omega
  have hlen_flat : (shuffle (rs.map (fun r => block_of r.1 r.2.1))).flatten.length
      = LANGUAGES.length * (cfg.chars_per_lang + 17) := by
    rw [List.length_flatten]
    have hperm := (hsh (rs.map (fun r => block_of r.1 r.2.1))).map List.length
    rw [hperm.sum_eq, List.map_map]
    have hs := sum_map_const (fun r => (block_of r.1 r.2.1).length)
      (cfg.chars_per_lang + 17) rs hblock_len
    rw [← hrslen]
    simpa [Function.comp] using hs
  have hstats_sum : (((rs.map (fun r => (r.1, r.2.2))).map (fun p => p.2.total_chars)).sum)
      = LANGUAGES.length * cfg.chars_per_lang := by
    rw [List.map_map]
    have hs := sum_map_const (fun r => r.2.2.total_chars) cfg.chars_per_lang rs
      (fun r hr => (hall r hr).2)
    rw [← hrslen]
    simpa [Function.comp] using hs
  refine ⟨_, _, hcreate, rfl, hlen_flat, rfl, hstats_sum, ?_⟩
  have hpsfst : (rs.map (fun r => (r.1, r.2.2))).map Prod.fst = LANGUAGES := by
    rw [List.map_map]
    simpa [Function.comp] using hmap
  have hrows : csv_rows
      [({ filename := cfg.filename, target_chars := cfg.total_chars,
          actual_chars := (shuffle (rs.map (fun r => block_of r.1 r.2.1))).flatten.length,
          chars_per_lang := cfg.chars_per_lang, baseline_lang := cfg.baseline_lang,
          language_stats := rs.map (fun r => (r.1, r.2.2)) } : FileStats)]
      = (rs.map (fun r => (r.1, r.2.2))).map (fun p =>
        ({ file := cfg.filename, language := p.1,
           is_baseline := if p.1 = cfg.baseline_lang then "YES" else "NO",
           target_chars := p.2.target_chars, wiki_chars := p.2.wiki_chars,
           oscar_chars := p.2.oscar_chars,
           total_chars := p.2.total_chars } : CsvRow)) := by
    unfold csv_rows
    simp only [List.flatMap_cons, List.flatMap_nil, List.append_nil]
    exact filterMap_lookup_map
      (fun lang stt =>
        ({ file := cfg.filename, language := lang,
           is_baseline := if lang = cfg.baseline_lang then "YES" else "NO",
           target_chars := stt.target_chars, wiki_chars := stt.wiki_chars,
           oscar_chars := stt.oscar_chars,
           total_chars := stt.total_chars } : CsvRow))
      LANGUAGES (rs.map (fun r => (r.1, r.2.2))) hpsfst languages_nodup
  rw [hrows, List.map_map, List.map_map]
  have hs := sum_map_const (fun r => r.2.2.total_chars) cfg.chars_per_lang rs
    (fun r hr => (hall r hr).2)
  rw [← hrslen]
  simpa [Function.comp] using hs

/-! ### Helper lemmas: provenance of interleaved characters -/

theorem filterMap_some_eq {α : Type} (l : List α) : l.filterMap some = l := by
  induction l with
  | nil => rfl
  | cons x xs ih => simp [List.filterMap_cons, ih]

theorem interleave_fromA (A B : List Char) (k : Nat) (hk : 0 < k) :
    (interleave_texts (A.map Sum.inl) (B.map Sum.inr) k).filterMap fromA = A := by
  have hfun : (fromA ∘ Sum.inl : Char → Option Char) = some := by
    funext a
    rfl
  unfold interleave_texts
  by_cases hA : (A.map (Sum.inl : Char → Sum Char Char)).isEmpty
  · have hAnil : A = [] := by
      rw [List.isEmpty_iff, List.map_eq_nil_iff] at hA
      exact hA
    subst hAnil
    simp only [List.map_nil, List.isEmpty_nil, if_true]
    rw [List.filterMap_map]
    apply List.filterMap_eq_nil_iff.mpr
    intro a _
    rfl
  · by_cases hB : (B.map (Sum.inr : Char → Sum Char Char)).isEmpty
    · simp only [hA, Bool.false_eq_true, if_false, hB, if_true]
      rw [List.filterMap_map, hfun, filterMap_some_eq]
    · simp only [hA, hB, Bool.false_eq_true, if_false]
      have hkill : ∀ c ∈ chunksFrom (B.map Sum.inr) k, c.filterMap fromA = [] := by
        intro c hc
        apply List.filterMap_eq_nil_iff.mpr
        intro a ha
        have hmem : a ∈ B.map Sum.inr := mem_chunksFrom k hk _ c hc a ha
        obtain ⟨b, _, rfl⟩ := List.mem_map.mp hmem
        rfl
      rw [interleave_flatten_filterMap fromA _ _ hkill, chunksFrom_flatten k hk,
        List.filterMap_map, hfun, filterMap_some_eq]

theorem interleave_fromB (A B : List Char) (k : Nat) (hk : 0 < k) :
    (interleave_texts (A.map Sum.inl) (B.map Sum.inr) k).filterMap fromB = B := by
  have hfun : (fromB ∘ Sum.inr : Char → Option Char) = some := by
    funext b
    rfl
  unfold interleave_texts
  by_cases hA : (A.map (Sum.inl : Char → Sum Char Char)).isEmpty
  · simp only [hA, if_true]
    rw [List.filterMap_map, hfun, filterMap_some_eq]
  · by_cases hB : (B.map (Sum.inr : Char → Sum Char Char)).isEmpty
    · have hBnil : B = [] := by
        rw [List.isEmpty_iff, List.map_eq_nil_iff] at hB
        exact hB
      subst hBnil
      simp only [List.map_nil, List.isEmpty_nil, if_true, hA, Bool.false_eq_true, if_false]
      rw [List.filterMap_map]
      apply List.filterMap_eq_nil_iff.mpr
      intro a _
      rfl
    · simp only [hA, hB, Bool.false_eq_true, if_false]
      have hkill : ∀ c ∈ chunksFrom (A.map Sum.inl) k, c.filterMap fromB = [] := by
        intro c hc
        apply List.filterMap_eq_nil_iff.mpr
        intro a ha
        have hmem : a ∈ A.map Sum.inl := mem_chunksFrom k hk _ c hc a ha
        obtain ⟨b, _, rfl⟩ := List.mem_map.mp hmem
        rfl
      rw [interleave_flatten_filterMap_right fromB _ _ hkill, chunksFrom_flatten k hk,
        List.filterMap_map, hfun, filterMap_some_eq]

theorem interleave_untag (A B : List Char) (k : Nat) :
    (interleave_texts (A.map Sum.inl) (B.map Sum.inr) k).map untag
      = interleave_texts A B k := by
  have h1 : (A.map Sum.inl).map untag = A := by
    rw [List.map_map]
    have : (untag ∘ Sum.inl : Char → Char) = id := by
      funext a
      rfl
    rw [this, List.map_id]
  have h2 : (B.map Sum.inr).map untag = B := by
    rw [List.map_map]
    have : (untag ∘ Sum.inr : Char → Char) = id := by
      funext b
      rfl
    rw [this, List.map_id]
  calc (interleave_texts (A.map Sum.inl) (B.map Sum.inr) k).map untag
      = interleave_texts ((A.map Sum.inl).map untag) ((B.map Sum.inr).map untag) k :=
        (interleave_texts_map untag _ _ k).symm
    _ = interleave_texts A B k := by rw [h1, h2]

/-! ### Helper lemmas: per-language totals and loader value -/

theorem load_length (fs : String → Option (List Char)) (p : String) (n : Nat)
    (hn : 0 < n) : (load_text_file fs p (some n)).length = min n (fileLen fs p) := by
  unfold load_text_file fileLen
  cases hfs : fs p with
  | none => simp
  | some c =>
    dsimp only
    rw [if_neg (Nat.pos_iff_ne_zero.mp hn)]
    simp [List.length_take]

theorem fileLen_of_replicate (fs : String → Option (List Char)) (p : String)
    (m : Nat) (h : fs p = some (List.replicate m 'a')) : fileLen fs p = m := by
  show ((fs p).getD []).length = m
  rw [h, Option.getD_some, List.length_replicate]

theorem stats_of_wiki (d : LangData) (lang : String) (n : Nat)
    (fs : String → Option (List Char)) :
    (stats_of d lang n fs).wiki_chars = (wiki_text_of d lang n fs).length := rfl

theorem stats_of_oscar (d : LangData) (lang : String) (n : Nat)
    (fs : String → Option (List Char)) :
    (stats_of d lang n fs).oscar_chars = (oscar_text_of d lang n fs).length := rfl

theorem stats_of_total (d : LangData) (lang : String) (n : Nat)
    (fs : String → Option (List Char)) :
    (stats_of d lang n fs).total_chars
      = (wiki_text_of d lang n fs).length + (oscar_text_of d lang n fs).length := rfl

theorem get_balanced_total (lang : String) (d : LangData) (n : Nat)
    (fs : String → Option (List Char)) (hd : LANGUAGE_DATA.lookup lang = some d)
    (hsum : n ≤ d.wiki + d.oscar)
    (hw : d.wiki ≤ fileLen fs (wikiPath lang)) (ho : d.oscar ≤ fileLen fs (oscarPath lang))
    (hex : n / 2 ≤ min d.wiki d.oscar → n - n / 2 ≤ d.oscar) :
    ∃ t st, get_balanced_language_data lang n fs = some (t, st) ∧
      t.length = n ∧ st.total_chars = n :=
  ⟨merged_of d lang n fs, stats_of d lang n fs,
   get_balanced_language_data_eq lang d n fs hd,
   merged_of_length_eq d lang n fs hw ho hsum hex,
   stats_total_eq d lang n fs hw ho hsum hex⟩

theorem py_int_mono (q r : Rat) (hq : 0 ≤ q) (h : q ≤ r) : py_int q ≤ py_int r := by
  unfold py_int
  rw [if_pos hq, if_pos (le_trans hq h)]
  have h2 : Int.floor q ≤ Int.floor r := Int.floor_le_floor h
  have e1 : Int.floor q = q.floor := rfl
  have e2 : Int.floor r = r.floor := rfl
  rw [e1, e2] at h2
  exact h2

/-! ### Concrete-filesystem facts used at witness inputs -/

theorem fsFull_avail : ∀ lang ∈ LANGUAGES, ∃ d, LANGUAGE_DATA.lookup lang = some d ∧
    12664842 ≤ d.wiki + d.oscar ∧
    d.wiki ≤ fileLen fsFull (wikiPath lang) ∧
    d.oscar ≤ fileLen fsFull (oscarPath lang) ∧
    (12664842 / 2 ≤ min d.wiki d.oscar → 12664842 - 12664842 / 2 ≤ d.oscar) := by
  have hfl : ∀ (p : String) (m : Nat), fsFull p = some (List.replicate m 'a') →
      fileLen fsFull p = m := fun p m he => fileLen_of_replicate fsFull p m he
  intro lang hl
  fin_cases hl
  · exact ⟨⟨12646633, 18209, 12664842⟩, rfl, by decide,
      le_of_eq (hfl (wikiPath "yo") 12646633 rfl).symm,
      le_of_eq (hfl (oscarPath "yo") 18209 rfl).symm, by decide⟩
  · exact ⟨⟨1326903243, 50000000, 1376903243⟩, rfl, by decide,
      le_of_eq (hfl (wikiPath "ar") 1326903243 rfl).symm,
      le_of_eq (hfl (oscarPath "ar") 50000000 rfl).symm, by decide⟩
  · exact ⟨⟨730233254, 50000000, 780233254⟩, rfl, by decide,
      le_of_eq (hfl (wikiPath "zh") 730233254 rfl).symm,
      le_of_eq (hfl (oscarPath "zh") 50000000 rfl).symm, by decide⟩
  · exact ⟨⟨4569290658, 50000000, 4619290658⟩, rfl, by decide,
      le_of_eq (hfl (wikiPath "ru") 4569290658 rfl).symm,
      le_of_eq (hfl (oscarPath "ru") 50000000 rfl).symm, by decide⟩
  · exact ⟨⟨218280173, 50000000, 268280173⟩, rfl, by decide,
      le_of_eq (hfl (wikiPath "hi") 218280173 rfl).symm,
      le_of_eq (hfl (oscarPath "hi") 50000000 rfl).symm, by decide⟩
  · exact ⟨⟨1423270470, 50000000, 1473270470⟩, rfl, by decide,
      le_of_eq (hfl (wikiPath "ja") 1423270470 rfl).symm,
      le_of_eq (hfl (oscarPath "ja") 50000000 rfl).symm, by decide⟩
  · exact ⟨⟨61130713, 8428241, 69558954⟩, rfl, by decide,
      le_of_eq (hfl (wikiPath "sw") 61130713 rfl).symm,
      le_of_eq (hfl (oscarPath "sw") 8428241 rfl).symm, by decide⟩
  · exact ⟨⟨368019974, 50000000, 418019974⟩, rfl, by decide,
      le_of_eq (hfl (wikiPath "bn") 368019974 rfl).symm,
      le_of_eq (hfl (oscarPath "bn") 50000000 rfl).symm, by decide⟩
  · exact ⟨⟨728714011, 50000000, 778714011⟩, rfl, by decide,
      le_of_eq (hfl (wikiPath "tr") 728714011 rfl).symm,
      le_of_eq (hfl (oscarPath "tr") 50000000 rfl).symm, by decide⟩

/-! ### Claim theorems -/

/-- C3: for all texts A and B and any positive chunk_size, the Chunked
Interleaver preserves total length, returns the other text unchanged when
one input is empty, and is an order-preserving interleaving: tagging every
character with its source and running the same (polymorphic) algorithm,
the subsequence of output characters originating from A equals A, the one
originating from B equals B, and erasing the tags recovers the untagged
output. -/
theorem C3_interleave_properties (A B : List Char) (k : Nat) (hk : 0 < k) :
    (interleave_texts A B k).length = A.length + B.length ∧
    interleave_texts ([] : List Char) B k = B ∧
    interleave_texts A ([] : List Char) k = A ∧
    (interleave_texts (A.map Sum.inl) (B.map Sum.inr) k).filterMap fromA = A ∧
    (interleave_texts (A.map Sum.inl) (B.map Sum.inr) k).filterMap fromB = B ∧
    (interleave_texts (A.map Sum.inl) (B.map Sum.inr) k).map untag
      = interleave_texts A B k := by
  refine ⟨interleave_texts_length A B k hk, ?_, ?_, interleave_fromA A B k hk,
    interleave_fromB A B k hk, interleave_untag A B k⟩
  · simp [interleave_texts]
  · by_cases hA : A.isEmpty
    · rw [List.isEmpty_iff] at hA
      subst hA
      simp [interleave_texts]
    · simp [interleave_texts, hA]

/-- Witness for C3 at concrete inputs (chunk_size 2). -/
theorem C3_witness :
    (interleave_texts ("ab".data) ("cde".data) 2).length
        = ("ab".data).length + ("cde".data).length ∧
    interleave_texts ([] : List Char) ("cde".data) 2 = "cde".data ∧
    interleave_texts ("ab".data) ([] : List Char) 2 = "ab".data ∧
    (interleave_texts (("ab".data).map Sum.inl)
      (("cde".data).map Sum.inr) 2).filterMap fromA = "ab".data ∧
    (interleave_texts (("ab".data).map Sum.inl)
      (("cde".data).map Sum.inr) 2).filterMap fromB = "cde".data ∧
    (interleave_texts (("ab".data).map Sum.inl)
      (("cde".data).map Sum.inr) 2).map untag
      = interleave_texts ("ab".data) ("cde".data) 2 :=
  C3_interleave_properties "ab".data "cde".data 2 (by decide)

/-- C5: when chars_needed is positive, both availabilities are positive, and
chars_needed // 2 fits under both availabilities, the allocator assigns
exactly chars_needed // 2 to wiki and the remaining chars_needed minus
chars_needed // 2 (absorbing the rounding remainder) to crawl, so the two
assigned counts differ by at most one. -/
theorem C5_even_split (w o n : Nat) (hn : 0 < n) (hw : 0 < w) (ho : 0 < o)
    (h : n / 2 ≤ min w o) :
    (alloc_policy w o n).1 = n / 2 ∧
    (alloc_policy w o n).2 = n - n / 2 ∧
    (((alloc_policy w o n).1 : Int) - ((alloc_policy w o n).2 : Int)).natAbs ≤ 1 := by
  obtain ⟨h1, h2⟩ := alloc_half w o n hw ho h
  refine ⟨h1, h2, ?_⟩
  rw [h1, h2]
  omega

/-- Witness for C5: the end-to-end scenario numbers of the specification. -/
theorem C5_witness :
    (alloc_policy 500 1500 1000).1 = 1000 / 2 ∧
    (alloc_policy 500 1500 1000).2 = 1000 - 1000 / 2 ∧
    (((alloc_policy 500 1500 1000).1 : Int)
      - ((alloc_policy 500 1500 1000).2 : Int)).natAbs ≤ 1 :=
  C5_even_split 500 1500 1000 (by decide) (by decide) (by decide) (by decide)

/-- C7: the per-language target int(min_total * fraction) derived by the
Baseline Calculator from one fixed profile set is monotone in the
configured fraction, for the nonnegative fractions the program uses. -/
theorem C7_target_monotone (profiles : List (String × LangData)) (r1 r2 : Rat)
    (h0 : 0 ≤ r1) (h12 : r1 ≤ r2) (t1 t2 : Int)
    (h1 : chars_per_lang_of profiles r1 = some t1)
    (h2 : chars_per_lang_of profiles r2 = some t2) : t1 ≤ t2 := by
  unfold chars_per_lang_of at h1 h2
  cases hmin : min_by_total profiles with
  | none =>
    rw [hmin] at h1
    simp at h1
  | some p =>
    rw [hmin] at h1 h2
    have e1 : py_int ((p.2.total : Rat) * r1) = t1 := by simpa using h1
    have e2 : py_int ((p.2.total : Rat) * r2) = t2 := by simpa using h2
    rw [← e1, ← e2]
    exact py_int_mono _ _ (mul_nonneg (by positivity) h0)
      (mul_le_mul_of_nonneg_left h12 (by positivity))

/-- Witness for C7: the fractions 0.9 and 1.0 of the source applied to the
actual LANGUAGE_DATA table (baseline yo, 12664842 characters). -/
theorem C7_witness : ∃ t1 t2 : Int,
    chars_per_lang_of LANGUAGE_DATA (9/10) = some t1 ∧
    chars_per_lang_of LANGUAGE_DATA 1 = some t2 ∧ t1 ≤ t2 := by
  have hmin : min_by_total LANGUAGE_DATA
      = some ("yo", ⟨12646633, 18209, 12664842⟩) := by decide
  have e1 : chars_per_lang_of LANGUAGE_DATA (9/10) = some 11398357 := by
    unfold chars_per_lang_of
    rw [hmin]
    show some (py_int ((12664842 : Nat) * (9/10 : Rat))) = some 11398357
    congr 1
    unfold py_int
    rw [if_pos (by norm_num)]
    show Int.floor ((12664842 : Nat) * (9/10 : Rat)) = 11398357
    norm_num
  have e2 : chars_per_lang_of LANGUAGE_DATA 1 = some 12664842 := by
    unfold chars_per_lang_of
    rw [hmin]
    show some (py_int ((12664842 : Nat) * (1 : Rat))) = some 12664842
    congr 1
    unfold py_int
    rw [if_pos (by norm_num)]
    show Int.floor ((12664842 : Nat) * (1 : Rat)) = 12664842
    norm_num
  exact ⟨11398357, 12664842, e1, e2,
    C7_target_monotone LANGUAGE_DATA (9/10) 1 (by norm_num) (by norm_num) _ _ e1 e2⟩

/-- C9: for positive chars_needed the two allocator requests sum to at most
chars_needed in every branch; hence, since the loader returns at most the
requested count per source, the merged text never exceeds chars_needed, the
guard of the post-merge truncation is false, and the returned text is the
untruncated merge. -/
theorem C9_no_truncation (w o n : Nat) (hn : 0 < n) (lang : String) (d : LangData)
    (fs : String → Option (List Char)) (hd : LANGUAGE_DATA.lookup lang = some d) :
    (alloc_policy w o n).1 + (alloc_policy w o n).2 ≤ n ∧
    (merged_of d lang n fs).length ≤ n ∧
    ¬(n < (merged_of d lang n fs).length) ∧
    get_balanced_language_data lang n fs
      = some (merged_of d lang n fs, stats_of d lang n fs) :=
  ⟨alloc_sum_le w o n, merged_of_length_le d lang n fs,
   Nat.not_lt.mpr (merged_of_length_le d lang n fs),
   get_balanced_language_data_eq lang d n fs hd⟩

/-- Witness for C9 at concrete availabilities and an empty filesystem. -/
theorem C9_witness :
    (alloc_policy 7 5 10).1 + (alloc_policy 7 5 10).2 ≤ 10 ∧
    (merged_of (⟨61130713, 8428241, 69558954⟩ : LangData) "sw" 10
      (fun _ => none)).length ≤ 10 ∧
    ¬(10 < (merged_of (⟨61130713, 8428241, 69558954⟩ : LangData) "sw" 10
      (fun _ => none)).length) ∧
    get_balanced_language_data "sw" 10 (fun _ => none)
      = some (merged_of (⟨61130713, 8428241, 69558954⟩ : LangData) "sw" 10 (fun _ => none),
              stats_of (⟨61130713, 8428241, 69558954⟩ : LangData) "sw" 10 (fun _ => none)) :=
  C9_no_truncation 7 5 10 (by decide) "sw" ⟨61130713, 8428241, 69558954⟩
    (fun _ => none) rfl

/-- C10: the summary statistics returned by create_balanced_file, and the
length of the written file, do not depend on which permutation the shuffle
applies to the collected blocks; only the block order inside the file can
differ between two permutations. -/
theorem C10_shuffle_independence (cfg : SplitConfig) (fs : String → Option (List Char))
    (s1 s2 : List (List Char) → List (List Char))
    (h1 : ∀ l, (s1 l).Perm l) (h2 : ∀ l, (s2 l).Perm l) :
    (create_balanced_file cfg fs s1).map (fun r => r.2)
      = (create_balanced_file cfg fs s2).map (fun r => r.2) ∧
    (create_balanced_file cfg fs s1).map (fun r => r.1.length)
      = (create_balanced_file cfg fs s2).map (fun r => r.1.length) := by
  cases hcol : collect_languages cfg.chars_per_lang fs LANGUAGES with
  | none =>
    unfold create_balanced_file
    rw [hcol]
    exact ⟨rfl, rfl⟩
  | some rs =>
    have hlen : ∀ s : List (List Char) → List (List Char), (∀ l, (s l).Perm l) →
        ((s ((rs.filter (fun r => decide (0 < r.2.1.length))).map
          (fun r => block_of r.1 r.2.1))).flatten).length
        = ((((rs.filter (fun r => decide (0 < r.2.1.length))).map
          (fun r => block_of r.1 r.2.1))).flatten).length := by
      intro s hs
      rw [List.length_flatten, List.length_flatten]
      exact ((hs _).map List.length).sum_eq
    constructor
    · unfold create_balanced_file
      rw [hcol]
      show some _ = some _
      dsimp only
      rw [hlen s1 h1, hlen s2 h2]
    · unfold create_balanced_file
      rw [hcol]
      show some _ = some _
      dsimp only
      rw [hlen s1 h1, hlen s2 h2]

/-- Witness for C10: the identity and reversal permutations on the medium
split with full source files. -/
theorem C10_witness :
    (create_balanced_file mediumCfg fsFull id).map (fun r => r.2)
      = (create_balanced_file mediumCfg fsFull List.reverse).map (fun r => r.2) ∧
    (create_balanced_file mediumCfg fsFull id).map (fun r => r.1.length)
      = (create_balanced_file mediumCfg fsFull List.reverse).map (fun r => r.1.length) :=
  C10_shuffle_independence mediumCfg fsFull id List.reverse
    (fun l => List.Perm.refl l) (fun l => List.reverse_perm l)

/-- C2 counterexample: for yo (wiki 12646633, crawl 18209) and chars_needed
36419, combined availability exceeds chars_needed and both source files hold
exactly their advertised counts, yet the even-split branch requests 18210
crawl characters from a file advertising 18209, so total_chars_used is
36418, one short of chars_needed — refuting the equality clause of C2. -/
theorem C2_counterexample :
    (36419 : Nat) ≤ 12646633 + 18209 ∧
    LANGUAGE_DATA.lookup "yo" = some ⟨12646633, 18209, 12664842⟩ ∧
    12646633 ≤ fileLen fsYoExact (wikiPath "yo") ∧
    18209 ≤ fileLen fsYoExact (oscarPath "yo") ∧
    ∃ t st, get_balanced_language_data "yo" 36419 fsYoExact = some (t, st) ∧
      st.total_chars = 36418 ∧ ¬(st.total_chars = 36419) := by
  have hflw : fileLen fsYoExact (wikiPath "yo") = 12646633 :=
    fileLen_of_replicate fsYoExact (wikiPath "yo") 12646633 rfl
  have hflo : fileLen fsYoExact (oscarPath "yo") = 18209 :=
    fileLen_of_replicate fsYoExact (oscarPath "yo") 18209 rfl
  have hd : LANGUAGE_DATA.lookup "yo" = some ⟨12646633, 18209, 12664842⟩ := rfl
  refine ⟨by decide, hd, le_of_eq hflw.symm, le_of_eq hflo.symm, ?_⟩
  have halloc : alloc_policy 12646633 18209 36419 = (18209, 18210) := by decide
  have htot : (stats_of (⟨12646633, 18209, 12664842⟩ : LangData) "yo" 36419
      fsYoExact).total_chars = 36418 := by
    unfold stats_of wiki_text_of oscar_text_of
    dsimp only
    rw [halloc]
    dsimp only
    rw [if_pos (by decide), if_pos (by decide),
      load_length _ _ _ (by decide), load_length _ _ _ (by decide), hflw, hflo]
    decide
  exact ⟨_, _, get_balanced_language_data_eq "yo" ⟨12646633, 18209, 12664842⟩
    36419 fsYoExact hd, htot, by rw [htot]; decide⟩

/-- C2 amended: total_chars_used is at most chars_needed always, and equals
chars_needed whenever both source files hold at least their advertised
counts and combined availability covers chars_needed — except in the
even-split branch when crawl_available is less than chars_needed minus
chars_needed // 2 (with exactly advertised files this happens only for odd
chars_needed with crawl_available equal to chars_needed // 2); the final
guard excludes precisely that boundary case. -/
theorem C2_amended_allocator_totals (lang : String) (d : LangData) (n : Nat)
    (fs : String → Option (List Char)) (hd : LANGUAGE_DATA.lookup lang = some d)
    (hn : 0 < n) :
    ∃ t st, get_balanced_language_data lang n fs = some (t, st) ∧
      st.total_chars ≤ n ∧
      (d.wiki ≤ fileLen fs (wikiPath lang) → d.oscar ≤ fileLen fs (oscarPath lang) →
        n ≤ d.wiki + d.oscar → (n / 2 ≤ min d.wiki d.oscar → n - n / 2 ≤ d.oscar) →
        st.total_chars = n) :=
  ⟨merged_of d lang n fs, stats_of d lang n fs,
   get_balanced_language_data_eq lang d n fs hd,
   stats_total_le d lang n fs,
   fun hw ho hsum hex => stats_total_eq d lang n fs hw ho hsum hex⟩

/-- Witness for the amended C2 at sw with chars_needed 1000 and exactly
advertised files: the bound holds and the total is exactly 1000. -/
theorem C2_witness : ∃ t st,
    get_balanced_language_data "sw" 1000 fsSw = some (t, st) ∧
    st.total_chars ≤ 1000 ∧ st.total_chars = 1000 := by
  obtain ⟨t, st, he, hle, heq⟩ := C2_amended_allocator_totals "sw"
    ⟨61130713, 8428241, 69558954⟩ 1000 fsSw rfl (by decide)
  refine ⟨t, st, he, hle, heq ?_ ?_ (by decide) (by decide)⟩
  · exact le_of_eq (fileLen_of_replicate fsSw (wikiPath "sw") 61130713 rfl).symm
  · exact le_of_eq (fileLen_of_replicate fsSw (oscarPath "sw") 8428241 rfl).symm

/-- C4 counterexample: for ar the static table advertises wiki availability
1326903243, so even with the wiki file absent the allocator still assigns
half the medium target to wiki; the loader returns the empty string for
wiki, the crawl request is only 6332421, and total_chars_used is 6332421
rather than the target 12664842 — although the crawl file holds a full
target worth of characters and the call returns without fatal error. -/
theorem C4_counterexample :
    fsArNoWiki (wikiPath "ar") = none ∧
    12664842 ≤ fileLen fsArNoWiki (oscarPath "ar") ∧
    ∃ t st, get_balanced_language_data "ar" 12664842 fsArNoWiki = some (t, st) ∧
      st.wiki_chars = 0 ∧ st.total_chars = 6332421 ∧
      ¬(st.total_chars = 12664842) := by
  have hmiss : fsArNoWiki (wikiPath "ar") = none := rfl
  have hflo : fileLen fsArNoWiki (oscarPath "ar") = 12664842 :=
    fileLen_of_replicate fsArNoWiki (oscarPath "ar") 12664842 rfl
  have hd : LANGUAGE_DATA.lookup "ar" = some ⟨1326903243, 50000000, 1376903243⟩ := rfl
  have halloc : alloc_policy 1326903243 50000000 12664842 = (6332421, 6332421) := by
    decide
  have hwt : wiki_text_of (⟨1326903243, 50000000, 1376903243⟩ : LangData) "ar"
      12664842 fsArNoWiki = [] := by
    unfold wiki_text_of
    split_ifs
    · exact load_missing _ _ _ hmiss
    · rfl
  have hot : (oscar_text_of (⟨1326903243, 50000000, 1376903243⟩ : LangData) "ar"
      12664842 fsArNoWiki).length = 6332421 := by
    unfold oscar_text_of
    dsimp only
    rw [halloc]
    dsimp only
    rw [if_pos (by decide), load_length _ _ _ (by decide), hflo]
    decide
  have h4 : (wiki_text_of (⟨1326903243, 50000000, 1376903243⟩ : LangData) "ar"
      12664842 fsArNoWiki).length = 0 := by
    rw [hwt]
    rfl
  have hstw : (stats_of (⟨1326903243, 50000000, 1376903243⟩ : LangData) "ar"
      12664842 fsArNoWiki).wiki_chars = 0 := by
    rw [stats_of_wiki]
    exact h4
  have hstt : (stats_of (⟨1326903243, 50000000, 1376903243⟩ : LangData) "ar"
      12664842 fsArNoWiki).total_chars = 6332421 := by
    rw [stats_of_total]
    omega
  exact ⟨hmiss, le_of_eq hflo.symm, _, _,
    get_balanced_language_data_eq "ar" ⟨1326903243, 50000000, 1376903243⟩
      12664842 fsArNoWiki hd, hstw, hstt, by rw [hstt]; decide⟩

/-- C4 amended: with the wiki file absent and the crawl file holding at
least the target, the call still succeeds with a recoverable empty wiki
read: wiki_chars_used is 0 and everything returned comes from crawl, but
total_chars_used equals the crawl request the policy computes from the
static table (which ignores file presence); it equals min(target,
crawl_available) — hence the full target when crawl suffices — precisely
when the table lists zero wiki availability for the language. -/
theorem C4_amended_missing_wiki (lang : String) (d : LangData) (n : Nat)
    (fs : String → Option (List Char)) (hd : LANGUAGE_DATA.lookup lang = some d)
    (hn : 0 < n) (hmiss : fs (wikiPath lang) = none)
    (hcrawl : n ≤ fileLen fs (oscarPath lang)) :
    ∃ t st, get_balanced_language_data lang n fs = some (t, st) ∧
      st.wiki_chars = 0 ∧ st.oscar_chars = st.total_chars ∧
      st.total_chars = (alloc_policy d.wiki d.oscar n).2 ∧
      (d.wiki = 0 → st.total_chars = min n d.oscar) := by
  have hwt : wiki_text_of d lang n fs = [] := by
    unfold wiki_text_of
    split_ifs
    · exact load_missing _ _ _ hmiss
    · rfl
  have ho2 : (alloc_policy d.wiki d.oscar n).2 ≤ n :=
    le_trans (Nat.le_add_left _ _) (alloc_sum_le d.wiki d.oscar n)
  have hot : (oscar_text_of d lang n fs).length = (alloc_policy d.wiki d.oscar n).2 :=
    oscar_text_len_eq d lang n fs (le_trans ho2 hcrawl)
  refine ⟨_, _, get_balanced_language_data_eq lang d n fs hd, ?_, ?_, ?_, ?_⟩
  · unfold stats_of
    dsimp only
    rw [hwt]
    rfl
  · unfold stats_of
    dsimp only
    rw [hwt]
    simp
  · unfold stats_of
    dsimp only
    rw [hwt, hot]
    simp
  · intro hw0
    unfold stats_of
    dsimp only
    rw [hwt, hot]
    simp only [List.length_nil, Nat.zero_add]
    simp only [alloc_policy, hw0]
    split_ifs <;> omega

/-- Witness for the amended C4: ar with the wiki file absent and a
target-sized crawl file. -/
theorem C4_witness : ∃ t st,
    get_balanced_language_data "ar" 12664842 fsArNoWiki = some (t, st) ∧
    st.wiki_chars = 0 ∧ st.oscar_chars = st.total_chars ∧
    st.total_chars = (alloc_policy (1326903243 : Nat) 50000000 12664842).2 ∧
    ((1326903243 : Nat) = 0 → st.total_chars = min 12664842 50000000) := by
  have hflo : fileLen fsArNoWiki (oscarPath "ar") = 12664842 :=
    fileLen_of_replicate fsArNoWiki (oscarPath "ar") 12664842 rfl
  exact C4_amended_missing_wiki "ar" ⟨1326903243, 50000000, 1376903243⟩ 12664842
    fsArNoWiki rfl (by decide) rfl (le_of_eq hflo.symm)

/-- C8 counterexample: max_chars = 0 is falsy in Python, so the read is
uncapped and a two-character file yields a string of length 2, violating
the claimed bound length ≤ max_chars at max_chars = 0. -/
theorem C8_counterexample :
    fsTwo "f.txt" = some ("ab".data) ∧
    (load_text_file fsTwo "f.txt" (some 0)).length = 2 ∧
    ¬((load_text_file fsTwo "f.txt" (some 0)).length ≤ 0) := by decide

/-- C8 amended: for max_chars ≥ 1 the loader returns a prefix of the file
content of length at most max_chars; a missing file yields the empty
string; max_chars = 0, like max_chars = None, is treated as unlimited and
returns the whole content. -/
theorem C8_amended_loader (fs : String → Option (List Char)) (p : String) (n : Nat)
    (hn : 1 ≤ n) :
    (load_text_file fs p (some n)).length ≤ n ∧
    (∃ t, load_text_file fs p (some n) ++ t = (fs p).getD []) ∧
    (fs p = none → load_text_file fs p (some n) = []) ∧
    load_text_file fs p (some 0) = (fs p).getD [] ∧
    load_text_file fs p none = (fs p).getD [] := by
  refine ⟨load_length_le fs p n hn, load_is_prefix fs p n hn,
    fun h => load_missing fs p _ h, ?_, ?_⟩
  · unfold load_text_file
    cases fs p <;> simp
  · unfold load_text_file
    cases fs p <;> simp

/-- Witness for the amended C8 at a concrete two-character file with cap 1. -/
theorem C8_witness :
    (load_text_file fsTwo "f.txt" (some 1)).length ≤ 1 ∧
    (∃ t, load_text_file fsTwo "f.txt" (some 1) ++ t = (fsTwo "f.txt").getD []) ∧
    (fsTwo "f.txt" = none → load_text_file fsTwo "f.txt" (some 1) = []) ∧
    load_text_file fsTwo "f.txt" (some 0) = (fsTwo "f.txt").getD [] ∧
    load_text_file fsTwo "f.txt" none = (fsTwo "f.txt").getD [] :=
  C8_amended_loader fsTwo "f.txt" 1 (by decide)

/-- C1 counterexample: with the medium split (target 12664842 per language,
target total 113983578), every language at or above target combined
availability and every source file holding exactly its advertised count,
the written file also contains the nine block labels and separators (17
characters per language), so actual_chars is 113983731, not the target
total — refuting the equality of actual and target total. -/
theorem C1_counterexample :
    mediumCfg.total_chars = mediumCfg.chars_per_lang * LANGUAGES.length ∧
    (∀ lang ∈ LANGUAGES, ∃ d, LANGUAGE_DATA.lookup lang = some d ∧
      mediumCfg.chars_per_lang ≤ d.wiki + d.oscar) ∧
    ∃ text st, create_balanced_file mediumCfg fsFull id = some (text, st) ∧
      st.actual_chars = text.length ∧ st.target_chars = mediumCfg.total_chars ∧
      st.actual_chars = 113983731 ∧ ¬(st.actual_chars = st.target_chars) := by
  refine ⟨by decide, ?_, ?_⟩
  · intro lang hl
    obtain ⟨d, hd, hsum, _, _, _⟩ := fsFull_avail lang hl
    exact ⟨d, hd, hsum⟩
  · have h : ∀ l ∈ LANGUAGES, ∃ t st,
        get_balanced_language_data l mediumCfg.chars_per_lang fsFull = some (t, st) ∧
        t.length = mediumCfg.chars_per_lang ∧
        st.total_chars = mediumCfg.chars_per_lang := by
      intro l hl
      obtain ⟨d, hd, hsum, hw, ho, hex⟩ := fsFull_avail l hl
      exact get_balanced_total l d _ fsFull hd hsum hw ho hex
    obtain ⟨text, st, hc, hact, hlen, htar, _, _⟩ :=
      create_balanced_file_props mediumCfg fsFull id (fun l => List.Perm.refl l)
        (by decide) h
    refine ⟨text, st, hc, hact, htar, ?_, ?_⟩
    · rw [hlen]
      decide
    · rw [hlen, htar]
      decide

/-- C1 amended: for any split whose positive per-language target times the
number of languages is the target total, if every language has combined
availability at least the target, both source files hold at least their
advertised counts, and no language hits the odd-target crawl boundary case
of C2, then the file is assembled with actual_chars equal to target_chars
plus 17 characters of block labelling overhead per language, and both the
per-language stats totals and the CSV total_chars rows sum to actual_chars
minus that overhead — that is, exactly to target_chars. -/
theorem C1_amended_assembler_totals (cfg : SplitConfig)
    (fs : String → Option (List Char))
    (shuffle : List (List Char) → List (List Char))
    (hsh : ∀ l : List (List Char), (shuffle l).Perm l)
    (htot : cfg.total_chars = cfg.chars_per_lang * LANGUAGES.length)
    (hn : 0 < cfg.chars_per_lang)
    (havail : ∀ lang ∈ LANGUAGES, ∃ d, LANGUAGE_DATA.lookup lang = some d ∧
      cfg.chars_per_lang ≤ d.wiki + d.oscar ∧
      d.wiki ≤ fileLen fs (wikiPath lang) ∧
      d.oscar ≤ fileLen fs (oscarPath lang) ∧
      (cfg.chars_per_lang / 2 ≤ min d.wiki d.oscar →
        cfg.chars_per_lang - cfg.chars_per_lang / 2 ≤ d.oscar)) :
    ∃ text st, create_balanced_file cfg fs shuffle = some (text, st) ∧
      st.actual_chars = text.length ∧
      st.actual_chars = st.target_chars + 17 * LANGUAGES.length ∧
      (st.language_stats.map (fun p => p.2.total_chars)).sum
        = st.actual_chars - 17 * LANGUAGES.length ∧
      ((csv_rows [st]).map (fun r => r.total_chars)).sum
        = st.actual_chars - 17 * LANGUAGES.length := by
  have h : ∀ l ∈ LANGUAGES, ∃ t st,
      get_balanced_language_data l cfg.chars_per_lang fs = some (t, st) ∧
      t.length = cfg.chars_per_lang ∧ st.total_chars = cfg.chars_per_lang := by
    intro l hl
    obtain ⟨d, hd, hsum, hw, ho, hex⟩ := havail l hl
    exact get_balanced_total l d _ fs hd hsum hw ho hex
  obtain ⟨text, st, hc, hact, hlen, htar, hs1, hs2⟩ :=
    create_balanced_file_props cfg fs shuffle hsh hn h
  have hexp : LANGUAGES.length * (cfg.chars_per_lang + 17)
      = cfg.chars_per_lang * LANGUAGES.length + 17 * LANGUAGES.length := by ring
  refine ⟨text, st, hc, hact, ?_, ?_, ?_⟩
  · rw [hlen, htar, htot, hexp]
  · rw [hs1, hlen, hexp, Nat.add_sub_cancel]
    ring
  · rw [hs2, hlen, hexp, Nat.add_sub_cancel]
    ring

/-- Witness for the amended C1: the medium split over a filesystem holding
every source file at exactly its advertised length, shuffling with the
identity permutation. -/
theorem C1_witness : ∃ text st,
    create_balanced_file mediumCfg fsFull id = some (text, st) ∧
    st.actual_chars = text.length ∧
    st.actual_chars = st.target_chars + 17 * LANGUAGES.length ∧
    (st.language_stats.map (fun p => p.2.total_chars)).sum
      = st.actual_chars - 17 * LANGUAGES.length ∧
    ((csv_rows [st]).map (fun r => r.total_chars)).sum
      = st.actual_chars - 17 * LANGUAGES.length :=
  C1_amended_assembler_totals mediumCfg fsFull id (fun l => List.Perm.refl l)
    (by decide) (by decide) fsFull_avail
